import Mathlib

/-!
Verification of the contact-details extraction pipeline:
`parse_contacts.py` (flat CSV variant) and `parse_contacts_json.py`
(nested JSON variant).

Text is modelled as `List Char`.  Each regular expression appearing in the
source is embedded as a deterministic scanner that follows Python `re`
semantics for that concrete pattern: leftmost, non-overlapping scanning,
greedy quantifiers with backtracking.  Character classes are modelled on
their ASCII part (`\s`, `\w` and the case predicates are Unicode-aware in
Python; every pattern-relevant literal in the source is ASCII).
-/

namespace ContactDetails

/-- Text, as a Python string: a list of characters. -/
abbrev Str : Type := List Char

/-- ASCII part of the Python regex whitespace class `\s`. -/
def isPySpace (c : Char) : Bool :=
  c = ' ' || c = '\t' || c = '\n' || c = '\r' || c = '\x0b' || c = '\x0c'

/-- Python word character (ASCII part): letters, digits, underscore. -/
def isWordChar (c : Char) : Bool := c.isAlphanum || c = '_'

/-- Does the character at `i` exist and satisfy `p`? -/
def testAt (p : Char → Bool) (t : Str) (i : Nat) : Bool :=
  match t[i]? with
  | some c => p c
  | none => false

/-- Does the literal `lit` occur at position `i` of `t`? -/
def litAt (t : Str) (i : Nat) (lit : Str) : Bool :=
  lit.isPrefixOf (t.drop i)

/-- Length of the maximal run of characters satisfying `p` starting at `i`. -/
def runLen (p : Char → Bool) (t : Str) (i : Nat) : Nat :=
  ((t.drop i).takeWhile p).length

/-- Is the character at `i` (if any) a word character? -/
def wordAt (t : Str) (i : Nat) : Bool := testAt isWordChar t i

/-- Python regex word boundary `\b` at position `i` (between `i - 1` and `i`). -/
def boundaryAt (t : Str) (i : Nat) : Bool :=
  (if i = 0 then false else wordAt t (i - 1)) != wordAt t i

/-- Largest `k` with `lo ≤ k ≤ hi` satisfying `p` (greedy backtracking order). -/
def searchDesc (lo hi : Nat) (p : Nat → Bool) : Option Nat :=
  (List.range' lo (hi + 1 - lo)).reverse.find? p

/-- Smallest `k` with `lo ≤ k ≤ hi` satisfying `p` (lazy matching order). -/
def searchAsc (lo hi : Nat) (p : Nat → Bool) : Option Nat :=
  (List.range' lo (hi + 1 - lo)).find? p

/-- The slice `t[a:b]`. -/
def slice (t : Str) (a b : Nat) : Str := (t.drop a).take (b - a)

/-- Model of `re.findall` scanning: at each position try `matchAt`, which
returns the end of the match and the reported value; on a match resume at
its end, otherwise advance one character.  All embedded patterns match at
least one character, so no position `≥ len` can start a match.  `fuel`
bounds the recursion (the position strictly increases each step). -/
def reScanGo (matchAt : Nat → Option (Nat × α)) (len : Nat) :
    Nat → Nat → List α
  | 0, _ => []
  | fuel + 1, i =>
    if len ≤ i then []
    else
      match matchAt i with
      | some (e, v) => v :: reScanGo matchAt len fuel (max e (i + 1))
      | none => reScanGo matchAt len fuel (i + 1)

/-- Run `re.findall` for a concrete matcher. -/
def reScan (matchAt : Str → Nat → Option (Nat × α)) (t : Str) : List α :=
  reScanGo (matchAt t) t.length (t.length + 1) 0

/-- Model of `re.sub` with a constant replacement, same scanning discipline. -/
def reSubGo (matchAt : Nat → Option Nat) (t : Str) (repl : Str) :
    Nat → Nat → Str
  | 0, _ => []
  | fuel + 1, i =>
    if t.length ≤ i then []
    else
      match matchAt i with
      | some e => repl ++ reSubGo matchAt t repl fuel (max e (i + 1))
      | none =>
        match t[i]? with
        | some c => c :: reSubGo matchAt t repl fuel (i + 1)
        | none => []

/-- Run `re.sub(pattern, repl, t)` for a concrete matcher. -/
def reSub (matchAt : Str → Nat → Option Nat) (repl : Str) (t : Str) : Str :=
  reSubGo (matchAt t) t repl (t.length + 1) 0

/-- Python `str.strip()`. -/
def pyStrip (s : Str) : Str :=
  ((s.dropWhile isPySpace).reverse.dropWhile isPySpace).reverse

/-- Python `str.rstrip('/')`. -/
def rstripSlash (s : Str) : Str :=
  (s.reverse.dropWhile (· = '/')).reverse

/-- Python `str.split(sep)` for a one-character separator. -/
def splitOnChar (c : Char) : Str → List Str
  | [] => [[]]
  | x :: xs =>
    let r := splitOnChar c xs
    if x = c then [] :: r
    else
      match r with
      | [] => [[x]]
      | h :: tl => (x :: h) :: tl

/-- Python `sep.join(parts)`. -/
def joinSep (sep : Str) : List Str → Str
  | [] => []
  | [x] => x
  | x :: y :: tl => x ++ sep ++ joinSep sep (y :: tl)

/-- Python `str.startswith`. -/
def startsWithStr (pre s : Str) : Bool := pre.isPrefixOf s

/-- Python `str.endswith`. -/
def endsWithStr (suf s : Str) : Bool := suf.isSuffixOf s

/-- Python `str.lower()` on one character (ASCII part), as an explicit
case table. -/
def lowerChar (c : Char) : Char :=
  match c with
  | 'A' => 'a' | 'B' => 'b' | 'C' => 'c' | 'D' => 'd' | 'E' => 'e' | 'F' => 'f'
  | 'G' => 'g' | 'H' => 'h' | 'I' => 'i' | 'J' => 'j' | 'K' => 'k' | 'L' => 'l'
  | 'M' => 'm' | 'N' => 'n' | 'O' => 'o' | 'P' => 'p' | 'Q' => 'q' | 'R' => 'r'
  | 'S' => 's' | 'T' => 't' | 'U' => 'u' | 'V' => 'v' | 'W' => 'w' | 'X' => 'x'
  | 'Y' => 'y' | 'Z' => 'z' | c => c

/-- Python `str.lower()` (ASCII part). -/
def lowerStr (s : Str) : Str := s.map lowerChar

/-- Model of `pathlib.PurePath.stem`: the name without its suffix, where the suffix
starts at the last dot provided that dot is neither the first nor the last
character. -/
def stemOf (name : Str) : Str :=
  match ((List.range name.length).filter (fun j => testAt (· = '.') name j)).getLast? with
  | some i => if 0 < i ∧ i + 1 < name.length then name.take i else name
  | none => name

/-! ### The embedded regular expressions -/

/-- Character class `[a-zA-Z0-9._%+-]` (email local part). -/
def isLocalChar (c : Char) : Bool :=
  c.isAlphanum || c = '.' || c = '_' || c = '%' || c = '+' || c = '-'

/-- Character class `[a-zA-Z0-9.-]` (email domain). -/
def isDomChar (c : Char) : Bool := c.isAlphanum || c = '.' || c = '-'

/-- Match of `[a-zA-Z0-9._%+-]+@[a-zA-Z0-9.-]+\.[a-zA-Z]{2,}` starting at
`i`: the local part and the domain run are greedy; the engine backtracks
the domain run to the last dot that is followed by at least two letters and
preceded by at least one domain character.  The value is the span of the
whole match. -/
def matchEmailAt (t : Str) (i : Nat) : Option (Nat × (Nat × Nat)) :=
  let L := runLen isLocalChar t i
  if L = 0 then none
  else if testAt (· = '@') t (i + L) then
    let d := i + L + 1
    let m := runLen isDomChar t d
    match searchDesc (d + 1) (d + m - 1) (fun k =>
        testAt (· = '.') t k && decide (2 ≤ runLen Char.isAlpha t (k + 1))) with
    | some k =>
      let e := k + 1 + runLen Char.isAlpha t (k + 1)
      some (e, (i, e))
    | none => none
  else none

/-- All email matches, as substrings of `t`, in order. -/
def findEmails (t : Str) : List Str :=
  (reScan matchEmailAt t).map (fun s => slice t s.1 s.2)

/-- Character class `[A-Z\d]`. -/
def isUpperOrDigit (c : Char) : Bool := c.isUpper || c.isDigit

/-- One candidate layout of `[A-Z]{1,2}\d[A-Z\d]?\s?\d[A-Z]{2}\b` at `i`:
`l` leading letters, `o1` whether the optional letter-or-digit is taken,
`o2` whether the optional space is taken. -/
def postcodeLayoutAt (t : Str) (i l : Nat) (o1 o2 : Bool) : Option Nat :=
  let p1 := i + l
  let p2 := p1 + 1 + (if o1 then 1 else 0)
  let p3 := p2 + (if o2 then 1 else 0)
  let e := p3 + 3
  if (testAt Char.isUpper t i && (decide (l = 1) || testAt Char.isUpper t (i + 1)))
      && testAt Char.isDigit t p1
      && (!o1 || testAt isUpperOrDigit t (p1 + 1))
      && (!o2 || testAt isPySpace t p2)
      && testAt Char.isDigit t p3
      && testAt Char.isUpper t (p3 + 1) && testAt Char.isUpper t (p3 + 2)
      && boundaryAt t e then some e else none

/-- Match of `\b[A-Z]{1,2}\d[A-Z\d]?\s?\d[A-Z]{2}\b` at `i`, trying the
greedy alternatives in backtracking order. -/
def matchPostcodeAt (t : Str) (i : Nat) : Option (Nat × (Nat × Nat)) :=
  if boundaryAt t i then
    match ([(2, true, true), (2, true, false), (2, false, true), (2, false, false),
            (1, true, true), (1, true, false), (1, false, true), (1, false, false)]
          : List (Nat × Bool × Bool)).findSome?
        (fun c => postcodeLayoutAt t i c.1 c.2.1 c.2.2) with
    | some e => some (e, (i, e))
    | none => none
  else none

/-- All postcode matches, as substrings of `t`, in order. -/
def findPostcodes (t : Str) : List Str :=
  (reScan matchPostcodeAt t).map (fun s => slice t s.1 s.2)

/-- Character class `[\d\s()+-]` (telephone body). -/
def isPhoneChar (c : Char) : Bool :=
  c.isDigit || isPySpace c || c = '(' || c = ')' || c = '+' || c = '-'

/-- Candidate ends of `01\d{3,4}` / `02\d{3,4}` at `i` for second digit
`c2`, four digits preferred (greedy `{3,4}`). -/
def phoneAreaEnds (t : Str) (i : Nat) (c2 : Char) : List Nat :=
  if testAt (· = '0') t i && testAt (· = c2) t (i + 1) then
    (if testAt Char.isDigit t (i + 2) && testAt Char.isDigit t (i + 3)
        && testAt Char.isDigit t (i + 4) && testAt Char.isDigit t (i + 5)
     then [i + 6] else [])
    ++ (if testAt Char.isDigit t (i + 2) && testAt Char.isDigit t (i + 3)
        && testAt Char.isDigit t (i + 4) then [i + 5] else [])
  else []

/-- Candidate ends of the alternation `01\d{3,4}|02\d{3,4}|\+44` at `i`,
in the engine's preference order. -/
def phonePrefixEnds (t : Str) (i : Nat) : List Nat :=
  phoneAreaEnds t i '1' ++ phoneAreaEnds t i '2'
  ++ (if testAt (· = '+') t i && testAt (· = '4') t (i + 1)
         && testAt (· = '4') t (i + 2) then [i + 3] else [])

/-- Continuation `\s?[\d\s()+-]{8,}\b` from `p` (CSV variant): greedy
optional space, then the class run backtracked from its maximal length
down to 8 until a word boundary closes the match. -/
def phoneTailCSV (t : Str) (p : Nat) : Option Nat :=
  ((if testAt isPySpace t p then [p + 1] else []) ++ [p]).findSome? (fun q =>
    let m := runLen isPhoneChar t q
    if 8 ≤ m then
      (searchDesc 8 m (fun k => boundaryAt t (q + k))).map (fun k => q + k)
    else none)

/-- Match of `\b(?:01\d{3,4}|02\d{3,4}|\+44)\s?[\d\s()+-]{8,}\b` at `i`. -/
def matchPhoneCSVAt (t : Str) (i : Nat) : Option (Nat × (Nat × Nat)) :=
  if boundaryAt t i then
    match (phonePrefixEnds t i).findSome? (phoneTailCSV t) with
    | some e => some (e, (i, e))
    | none => none
  else none

/-- All CSV-variant telephone matches, as substrings of `t`, in order. -/
def findPhonesCSV (t : Str) : List Str :=
  (reScan matchPhoneCSVAt t).map (fun s => slice t s.1 s.2)

/-- Continuation `\s?[\d\s()+-]*\d[\d\s()+-]*\b` from `p` (JSON variant):
the first star is backtracked to each digit position (largest first), the
second star from its maximal extent down to empty until a word boundary
closes the match. -/
def phoneTailJSON (t : Str) (p : Nat) : Option Nat :=
  ((if testAt isPySpace t p then [p + 1] else []) ++ [p]).findSome? (fun q =>
    let m := runLen isPhoneChar t q
    ((List.range' 0 (m + 1)).reverse.filter
        (fun j => testAt Char.isDigit t (q + j))).findSome? (fun j =>
      let m2 := runLen isPhoneChar t (q + j + 1)
      (searchDesc 0 m2 (fun k => boundaryAt t (q + j + 1 + k))).map
        (fun k => q + j + 1 + k)))

/-- Match of `\b(?:01\d{3,4}|02\d{3,4}|\+44)\s?[\d\s()+-]*\d[\d\s()+-]*\b`
at `i`. -/
def matchPhoneJSONAt (t : Str) (i : Nat) : Option (Nat × (Nat × Nat)) :=
  if boundaryAt t i then
    match (phonePrefixEnds t i).findSome? (phoneTailJSON t) with
    | some e => some (e, (i, e))
    | none => none
  else none

/-- All JSON-variant telephone matches, as substrings of `t`, in order. -/
def findPhonesJSON (t : Str) : List Str :=
  (reScan matchPhoneJSONAt t).map (fun s => slice t s.1 s.2)

/-- Either quote character. -/
def isQuote (c : Char) : Bool := c = '"' || c = '\''

/-- Match of `href=["\']([^"\']+)["\']` at `i`; the value is the span of
the capture group. -/
def matchHrefAt (t : Str) (i : Nat) : Option (Nat × (Nat × Nat)) :=
  if litAt t i ("href=".data) && testAt isQuote t (i + 5) then
    let c := i + 6
    let L := runLen (fun ch => !isQuote ch) t c
    if L = 0 then none
    else if testAt isQuote t (c + L) then some (c + L + 1, (c, c + L))
    else none
  else none

/-- All href attribute values, as substrings of `t`, in order. -/
def findHrefs (t : Str) : List Str :=
  (reScan matchHrefAt t).map (fun s => slice t s.1 s.2)

/-- Attempt the remainder of the span pattern with the `itemprop` literal
anchored at `a`: `itemprop=["\']NAME["\'][^>]*>(.*?)</span>`.  The lazy
body stops at the first `</span>`; without `dotall` it may not contain a
newline. -/
def spanTryAttrAt (propName : Str) (dotall : Bool) (t : Str) (a : Nat) :
    Option (Nat × (Nat × Nat)) :=
  if litAt t a ("itemprop=".data) && testAt isQuote t (a + 9)
      && litAt t (a + 10) propName
      && testAt isQuote t (a + 10 + propName.length) then
    let p2 := a + 11 + propName.length
    let m2 := runLen (· ≠ '>') t p2
    if testAt (· = '>') t (p2 + m2) then
      let cs := p2 + m2 + 1
      let lim := if dotall then t.length else runLen (· ≠ '\n') t cs
      match searchAsc 0 lim (fun l => litAt t (cs + l) ("</span>".data)) with
      | some l => some (cs + l + 7, (cs, cs + l))
      | none => none
    else none
  else none

/-- Match of `<span[^>]*itemprop=["\']NAME["\'][^>]*>(.*?)</span>` at `i`.
The leading `[^>]*` is backtracked from its maximal extent, so the last
position of the `itemprop` attribute inside the tag that completes a match
wins.  The value is the span of the capture group. -/
def matchSpanAt (propName : Str) (dotall : Bool) (t : Str) (i : Nat) :
    Option (Nat × (Nat × Nat)) :=
  if litAt t i ("<span".data) then
    let p := i + 5
    let m := runLen (· ≠ '>') t p
    ((List.range' 0 (m + 1)).reverse).findSome?
      (fun j => spanTryAttrAt propName dotall t (p + j))
  else none

/-- All capture groups of the span pattern for `propName`. -/
def findSpans (propName : Str) (dotall : Bool) (t : Str) : List Str :=
  (reScan (matchSpanAt propName dotall) t).map (fun s => slice t s.1 s.2)

/-- Bodies of `streetAddress` spans (matched with `re.DOTALL`). -/
def streetMatches (t : Str) : List Str := findSpans ("streetAddress".data) true t

/-- Bodies of `addressLocality` spans. -/
def localityMatches (t : Str) : List Str := findSpans ("addressLocality".data) false t

/-- Bodies of `addressRegion` spans. -/
def regionMatches (t : Str) : List Str := findSpans ("addressRegion".data) false t

/-- Match of `<[^>]+>` at `i`. -/
def matchTagAt (t : Str) (i : Nat) : Option Nat :=
  if testAt (· = '<') t i then
    let m := runLen (· ≠ '>') t (i + 1)
    if m = 0 then none
    else if testAt (· = '>') t (i + 1 + m) then some (i + m + 2) else none
  else none

/-- Run `re.sub(r'<[^>]+>', '', t)`. -/
def stripTags (t : Str) : Str := reSub matchTagAt [] t

/-- Match of `<br\s*/?>` at `i`. -/
def matchBrAt (t : Str) (i : Nat) : Option Nat :=
  if litAt t i ("<br".data) then
    let p := i + 3 + runLen isPySpace t (i + 3)
    if testAt (· = '/') t p && testAt (· = '>') t (p + 1) then some (p + 2)
    else if testAt (· = '>') t p then some (p + 1)
    else none
  else none

/-- Run `re.sub(r'<br\s*/?>', '\n', t)`. -/
def brToNewline (t : Str) : Str := reSub matchBrAt ['\n'] t

/-- Match of `<script[^>]*>.*?</script>` (with `re.DOTALL`) at `i`. -/
def matchScriptAt (t : Str) (i : Nat) : Option Nat :=
  if litAt t i ("<script".data) then
    let p := i + 7
    let m := runLen (· ≠ '>') t p
    if testAt (· = '>') t (p + m) then
      let cs := p + m + 1
      match searchAsc 0 t.length (fun l => litAt t (cs + l) ("</script>".data)) with
      | some l => some (cs + l + 9)
      | none => none
    else none
  else none

/-- Run `re.sub(r'<script[^>]*>.*?</script>', '', t)`. -/
def stripScripts (t : Str) : Str := reSub matchScriptAt [] t

/-- Match of `\s+` at `i`. -/
def matchWsAt (t : Str) (i : Nat) : Option Nat :=
  let m := runLen isPySpace t i
  if m = 0 then none else some (i + m)

/-- Run `re.sub(r'\s+', ' ', t)`. -/
def collapseWs (t : Str) : Str := reSub matchWsAt [' '] t

/-- Word-end positions reachable by greedily extending
`(?:\s+[A-Z][a-z]+)*` from a word ending at `e`. -/
def capWordEnds (t : Str) : Nat → Nat → List Nat
  | 0, _ => []
  | fuel + 1, e =>
    let s := runLen isPySpace t e
    if s = 0 then []
    else
      let w := e + s
      if testAt Char.isUpper t w then
        let l := runLen Char.isLower t (w + 1)
        if l = 0 then []
        else (w + 1 + l) :: capWordEnds t fuel (w + 1 + l)
      else []

/-- Match of `\b([A-Z][a-z]+(?:\s+[A-Z][a-z]+)*)\b` at `i`.  Shrinking a
`[a-z]+` run never restores the trailing boundary (the next character
would be a lowercase letter), and every non-final word is followed by
whitespace, so when the boundary fails after the last word the engine
drops exactly the final repetition. -/
def matchCapAt (t : Str) (i : Nat) : Option (Nat × (Nat × Nat)) :=
  if boundaryAt t i && testAt Char.isUpper t i then
    let l0 := runLen Char.isLower t (i + 1)
    if l0 = 0 then none
    else
      let e0 := i + 1 + l0
      match (e0 :: capWordEnds t t.length e0).reverse with
      | [] => none
      | last :: rest =>
        if boundaryAt t last then some (last, (i, last))
        else
          match rest with
          | [] => none
          | prev :: _ => some (prev, (i, prev))
  else none

/-- All capitalized-phrase matches, as substrings of `t`, in order. -/
def findCapTerms (t : Str) : List Str :=
  (reScan matchCapAt t).map (fun s => slice t s.1 s.2)

/-! ### URL canonicalization (`urllib.parse.urlparse`) -/

/-- Scheme characters of `urllib.parse`. -/
def isSchemeChar (c : Char) : Bool := c.isAlphanum || c = '+' || c = '-' || c = '.'

/-- Model of `urlsplit` input sanitization: strip leading C0-control/space
characters, remove every tab, CR and LF. -/
def sanitizeUrl (u : Str) : Str :=
  (u.dropWhile (fun c => decide (c.val ≤ 0x20))).filter
    (fun c => !(c = '\t' || c = '\n' || c = '\r'))

/-- The scheme split of `urlsplit`: the text before the first colon,
provided it is nonempty, starts with an ASCII letter and consists of
scheme characters; the scheme is lowercased. -/
def splitSchemeUrl (u : Str) : Str × Str :=
  match u.findIdx? (· = ':') with
  | some i =>
    if 0 < i ∧ testAt Char.isAlpha u 0 = true ∧ (u.take i).all isSchemeChar = true then
      (lowerStr (u.take i), u.drop (i + 1))
    else ([], u)
  | none => ([], u)

/-- The components of `urllib.parse.urlparse` that the scripts use. -/
structure UrlParts where
  scheme : Str
  netloc : Str
  path : Str
  query : Str
  fragment : Str
deriving DecidableEq

/-- Assembly of the parse components from the scheme, the netloc and the
remainder: split off the fragment at the first `#`, then the query at the
first `?`; the path is what remains. -/
def mkUrlParts (sch netloc r2 : Str) : UrlParts :=
  let beforeFrag := r2.takeWhile (· ≠ '#')
  let path := beforeFrag.takeWhile (· ≠ '?')
  { scheme := sch
    netloc := netloc
    path := path
    query := (beforeFrag.drop path.length).drop 1
    fragment := (r2.drop beforeFrag.length).drop 1 }

/-- Model of `urllib.parse.urlparse`: sanitize, split the scheme, take the
netloc after `//` up to the first `/`, `?` or `#`, then split off the
fragment and the query.  `none` models the `ValueError` the library raises
when the netloc has a `[` without `]` or a `]` without `[` (`Invalid IPv6
URL`) -- the raise path that exists in every Python 3 version.  (Python
3.11+ additionally validates balanced bracketed hosts as IP addresses, and
non-ASCII netlocs are checked after NFKC normalization; those
version- and Unicode-dependent raise paths are outside this model.) -/
def urlparseUrl (u : Str) : Option UrlParts :=
  let u1 := sanitizeUrl u
  let sr := splitSchemeUrl u1
  let r1 := sr.2
  if litAt r1 0 ("//".data) then
    let n := (r1.drop 2).takeWhile (fun c => !(c = '/' || c = '?' || c = '#'))
    if ('[' ∈ n ∧ ']' ∉ n) ∨ (']' ∈ n ∧ '[' ∉ n) then none
    else some (mkUrlParts sr.1 n ((r1.drop 2).drop n.length))
  else some (mkUrlParts sr.1 [] r1)

/-- Per-URL canonicalization of both scripts: rebuild
`f"{scheme}://{netloc}{path}"` when a scheme was recognized (dropping the
query and the fragment), keep the raw href otherwise; then strip trailing
slashes.  `none` propagates the `urlparse` raise. -/
def canonicalUrl (u : Str) : Option Str :=
  (urlparseUrl u).map (fun p =>
    rstripSlash (if p.scheme ≠ [] then p.scheme ++ ("://".data) ++ p.netloc ++ p.path else u))

/-- Fold step of the URL collection loop: skip `mailto:` targets, insert
the canonical form once, dropping empties; `none` aborts the whole
extraction (the `urlparse` call raises inside `extract_contact_details`,
outside any local handler). -/
def addUrl (acc : List Str) (u : Str) : Option (List Str) :=
  if startsWithStr ("mailto:".data) u then some acc
  else
    (canonicalUrl u).map (fun b => if b ≠ [] ∧ b ∉ acc then acc ++ [b] else acc)

/-- The deduplicated canonical URLs of a document, or `none` when one of
the hrefs makes `urlparse` raise.  The CSV variant keeps the URLs in a
`set` and sorts them on output, the JSON variant keeps this first-seen
order; a `set` only ever inspected through `sorted` is modelled as a
first-occurrence-deduplicated list. -/
def urlsCollected (t : Str) : Option (List Str) := (findHrefs t).foldlM addUrl []

/-! ### Address lines and heuristic terms -/

/-- Dedup append: `if part and part not in lines: lines.append(part)`. -/
def addLine (acc : List Str) (x : Str) : List Str :=
  if x ≠ [] ∧ x ∉ acc then acc ++ [x] else acc

/-- Strip and dedup-append every part. -/
def foldParts (acc : List Str) (parts : List Str) : List Str :=
  parts.foldl (fun a p => addLine a (pyStrip p)) acc

/-- The address-line accumulation of the CSV variant.  Note the source
order: tags are stripped from the street span body *before* `<br>` is
replaced by a newline, so `<br>` markers are deleted by the tag strip. -/
def addressLinesCSV (t : Str) : List Str :=
  let afterStreet := (streetMatches t).foldl
    (fun acc m => foldParts acc (splitOnChar '\n' (brToNewline (stripTags m)))) []
  let afterLocality := (localityMatches t).foldl
    (fun acc m => addLine acc (pyStrip (stripTags m))) afterStreet
  (regionMatches t).foldl
    (fun acc m => addLine acc (pyStrip (stripTags m))) afterLocality

/-- The street address lines of the JSON variant (`<br>` replaced by a
newline *before* tags are stripped). -/
def addressLinesJSON (t : Str) : List Str :=
  (streetMatches t).foldl
    (fun acc m => foldParts acc (splitOnChar '\n' (stripTags (brToNewline m)))) []

/-- Script- and tag-stripped, whitespace-collapsed document text. -/
def plainCollapsed (t : Str) : Str := collapseWs (stripTags (stripScripts t))

/-- The stoplist of generic words excluded from the `other` terms. -/
def stopWords : List Str :=
  [("Address".data), ("Service".data), ("Management".data), ("Email".data),
   ("Phone".data), ("Cheshire".data), ("East".data), ("Council".data),
   ("Contact".data), ("Team".data), ("Division".data)]

/-- Qualifying capitalized phrases: matches on the collapsed text that are
not in the stoplist. -/
def otherTermsAll (t : Str) : List Str :=
  (findCapTerms (plainCollapsed t)).filter (fun w => decide (w ∉ stopWords))

/-- Sort a list of strings (Python `sorted`: code-point lexicographic). -/
def sortStrs (l : List Str) : List Str := List.insertionSort (· ≤ ·) l

/-- Computation of `sorted(list(set(other_terms)))[:3]` (empty when no term qualifies). -/
def otherTop3 (t : Str) : List Str := (sortStrs (otherTermsAll t).dedup).take 3

/-- Model of `extract_plain_text` of the JSON variant: script- and tag-stripped,
collapsed, stripped text; `None` when empty. -/
def extractPlainText (t : Str) : Option Str :=
  let s := pyStrip (plainCollapsed t)
  if s = [] then none else some s

/-! ### Records and per-file extraction -/

/-- The `details` dictionary of `parse_contacts.py`. -/
structure DetailsCSV where
  email : Str
  telephone : Str
  address_lines : List Str
  postcode : Str
  urls : List Str
  other : List Str
deriving DecidableEq

/-- The fields of the CSV `details` dictionary as functions of the
document, given the collected URL set `us`; every field other than the
URLs is raise-free. -/
def extractCSVCore (t : Str) (us : List Str) : DetailsCSV where
  email := ((findEmails t).head?).getD []
  telephone := (((findPhonesCSV t).head?).map pyStrip).getD []
  address_lines := addressLinesCSV t
  postcode := (((findPostcodes t).head?).map pyStrip).getD []
  urls := us
  other := otherTop3 t

/-- Model of `extract_contact_details` of `parse_contacts.py`.  The only
raising step is the `urlparse` call in the URL loop; when it raises, the
exception propagates out of the function (the per-file handler in
`parse_html_file` catches it), so no partial dictionary survives. -/
def extractCSV (t : Str) : Option DetailsCSV :=
  (urlsCollected t).map (extractCSVCore t)

/-- One CSV output row. -/
structure CsvRow where
  Title : Str
  addr1 : Str
  addr2 : Str
  addr3 : Str
  Postcode : Str
  Email : Str
  URLs : Str
  Telephone : Str
  OtherInformation : Str
deriving DecidableEq

/-- Row assembly in `process_all_files` (CSV): pad the address lines with
empty strings to three entries and take columns 0..2; join the sorted URL
set with `", "` and the `other` terms with `"; "`. -/
def mkCsvRow (title : Str) (d : DetailsCSV) : CsvRow :=
  let a := d.address_lines ++ List.replicate (3 - d.address_lines.length) []
  { Title := title
    addr1 := a.getD 0 []
    addr2 := a.getD 1 []
    addr3 := a.getD 2 []
    Postcode := d.postcode
    Email := d.email
    URLs := joinSep (", ".data) (sortStrs d.urls)
    Telephone := d.telephone
    OtherInformation := joinSep ("; ".data) d.other }

/-- The single address entry of a JSON record. -/
structure JsonAddress where
  title : Option Str
  addressLine01 : Option Str
  addressLine02 : Option Str
  city : Option Str
  county : Option Str
  postcode : Option Str
  country : Option Str
deriving DecidableEq

/-- One `{label, email}` entry. -/
structure EmailEntry where
  label : Str
  email : Str
deriving DecidableEq

/-- One `{label, telephone, extension}` entry. -/
structure PhoneEntry where
  label : Str
  telephone : Str
  ext : Option Str
deriving DecidableEq

/-- One `{label, link}` entry (`link.id` is always the empty string). -/
structure WebsiteEntry where
  label : Option Str
  linkId : Str
  linkTitle : Str
  linkUri : Str
deriving DecidableEq

/-- One JSON output record. -/
structure JsonRecord where
  entryTitle : Str
  title : Option Str
  address : JsonAddress
  email : List EmailEntry
  telephone : List PhoneEntry
  website : List WebsiteEntry
  entryDescription : Option Str
  text : Option Str
  socialLinks : List Str
  entryTags : List Str
  entryThumbnail : Option Str
  other : Option Str
deriving DecidableEq

/-- First `addressLocality` span text (tag-stripped, stripped); `None`
when no span matches or when the text is empty (falsy in the source). -/
def cityOf (t : Str) : Option Str :=
  match (localityMatches t).head? with
  | some m =>
    let c := pyStrip (stripTags m)
    if c = [] then none else some c
  | none => none

/-- First `addressRegion` span text with the `Cheshire` suppression and
the falsy-empty check. -/
def countyOf (t : Str) : Option Str :=
  match (regionMatches t).head? with
  | some m =>
    let c := pyStrip (stripTags m)
    if lowerStr c = ("cheshire".data) then none
    else if c = [] then none else some c
  | none => none

/-- The fields of the JSON record as functions of the document and the
collected website list `ws` (`filename` is the stem the caller passes
in); every field other than the websites is raise-free. -/
def extractJSONCore (t : Str) (filename : Str) (ws : List Str) : JsonRecord :=
  let lines := addressLinesJSON t
  { entryTitle := filename
    title := lines.head?
    address :=
      { title := lines.head?
        addressLine01 := lines.head?
        addressLine02 := lines[1]?
        city := cityOf t
        county := countyOf t
        postcode := ((findPostcodes t).head?).map pyStrip
        country := none }
    email := (findEmails t).map (fun e => { label := e, email := e })
    telephone := (findPhonesJSON t).map
      (fun p => { label := pyStrip p, telephone := pyStrip p, ext := none })
    website := ws.map
      (fun u => { label := none, linkId := [], linkTitle := u, linkUri := u })
    entryDescription := none
    text := none
    socialLinks := []
    entryTags := []
    entryThumbnail := none
    other := extractPlainText t }

/-- Model of `extract_contact_details` of `parse_contacts_json.py`.  As in
the CSV variant, the `urlparse` call in the website loop is the only
raising step; its exception aborts the whole extraction. -/
def extractJSON (t : Str) (filename : Str) : Option JsonRecord :=
  (urlsCollected t).map (extractJSONCore t filename)

/-! ### Directory processing -/

/-- A directory entry: file name and content; the content is `none` when
reading or decoding the file raises.  (An extraction-time raise, from
`urlparse`, is modelled inside `extractCSV` / `extractJSON`; both kinds of
exception land in the same per-file `try`/`except`.) -/
abbrev FileEntry : Type := Str × Option Str

/-- Names skipped by the processing loops. -/
def denyList : List Str := [(".gitignore".data), ("test.html".data)]

/-- Enumeration `sorted(Path(directory).glob('*.html'))`: the names ending in `.html`,
in lexicographic order. -/
def sortFiles (dir : List FileEntry) : List FileEntry :=
  List.insertionSort (fun a b => a.1 ≤ b.1)
    (dir.filter (fun f => endsWithStr (".html".data) f.1))

/-- The record-building loop of `process_all_files` (CSV): skip denylisted
names, skip files whose parse returned `None` (read, decode or extraction
failure), append one row per remaining file. -/
def csvRows : List FileEntry → List CsvRow
  | [] => []
  | f :: fs =>
    if f.1 ∈ denyList then csvRows fs
    else
      match f.2.bind extractCSV with
      | some d => mkCsvRow (stemOf f.1) d :: csvRows fs
      | none => csvRows fs

/-- Model of `process_all_files` of `parse_contacts.py`. -/
def processCSV (dir : List FileEntry) : List CsvRow := csvRows (sortFiles dir)

/-- The record-building loop of `process_all_files` (JSON). -/
def jsonRecs : List FileEntry → List JsonRecord
  | [] => []
  | f :: fs =>
    if f.1 ∈ denyList then jsonRecs fs
    else
      match f.2.bind (fun c => extractJSON c (stemOf f.1)) with
      | some r => r :: jsonRecs fs
      | none => jsonRecs fs

/-- Model of `process_all_files` of `parse_contacts_json.py`. -/
def processJSON (dir : List FileEntry) : List JsonRecord := jsonRecs (sortFiles dir)

/-! ### Helper lemmas -/

/-- Occurrence as a contiguous substring (byte-for-byte reproduction). -/
def substringOf (e t : Str) : Prop := ∃ u v, t = u ++ (e ++ v)

/-- Every slice of `t` occurs contiguously in `t`. -/
lemma slice_substringOf (t : Str) (a b : Nat) : substringOf (slice t a b) t := by
  refine ⟨t.take a, (t.drop a).drop (b - a), ?_⟩
  unfold slice
  rw [List.take_append_drop, List.take_append_drop]

/-- The case table maps only `?` to `?`. -/
lemma lowerChar_eq_qmark {c : Char} (h : lowerChar c = '?') : c = '?' := by
  unfold lowerChar at h
  split at h <;> first | exact h | exact absurd h (by decide)

/-- The head of `dropWhile p` does not satisfy `p`. -/
lemma head?_dropWhile_false (p : Char → Bool) :
    ∀ l : Str, ∀ a, (l.dropWhile p).head? = some a → p a = false := by
  intro l
  induction l with
  | nil => intro a h; simp at h
  | cons x xs ih =>
    intro a h
    rw [List.dropWhile_cons] at h
    by_cases hx : p x
    · rw [if_pos hx] at h
      exact ih a h
    · rw [if_neg hx] at h
      simp at h
      rw [← h]
      exact Bool.eq_false_iff.2 hx

/-- An `rstripSlash` result never ends in a slash. -/
lemma rstripSlash_getLast (s : Str) :
    (rstripSlash s).getLast? ≠ some '/' := by
  unfold rstripSlash
  rw [List.getLast?_eq_head?_reverse, List.reverse_reverse]
  intro hc
  have := head?_dropWhile_false (· = '/') s.reverse '/' hc
  simp at this

/-- Membership survives `rstripSlash`. -/
lemma mem_rstripSlash {c : Char} {s : Str} (h : c ∈ rstripSlash s) : c ∈ s := by
  unfold rstripSlash at h
  rw [List.mem_reverse] at h
  exact List.mem_reverse.1 ((List.dropWhile_sublist _).subset h)

/-! ### C1 -/

/-- C1: the claim says a street span split by `<br>` yields two distinct
address lines in both variants.  The CSV variant strips tags *before*
substituting `<br>` (contradicting its own comments), so the two lines are
glued together; the JSON variant performs the substitutions in the
documented order and splits correctly. -/
theorem c1_csv_glues_br_split_lines :
    addressLinesCSV (("<span itemprop=\"streetAddress\">10 High Street<br>Westfields</span>").data)
      = [("10 High StreetWestfields").data]
    ∧ addressLinesJSON (("<span itemprop=\"streetAddress\">10 High Street<br>Westfields</span>").data)
      = [("10 High Street").data, ("Westfields").data]
    ∧ ((extractCSV (("<span itemprop=\"streetAddress\">10 High Street<br>Westfields</span>").data)).map
        DetailsCSV.address_lines)
      = some [("10 High StreetWestfields").data] :=
  ⟨by decide, by decide, by decide⟩

/-! ### C5 -/

/-- The county can never be the literal `Cheshire`. -/
lemma countyOf_ne_cheshire (t : Str) : countyOf t ≠ some (("Cheshire").data) := by
  unfold countyOf
  cases h : (regionMatches t).head? with
  | none => simp
  | some m =>
    simp only
    split_ifs with h1 h2
    · simp
    · simp
    · intro he
      simp only [Option.some.injEq] at he
      rw [he] at h1
      exact h1 (by decide)

/-- When the first region annotation text is `Cheshire`, the county is
suppressed. -/
lemma countyOf_cheshire_none (t : Str)
    (h : ((regionMatches t).head?).map (fun m => pyStrip (stripTags m))
        = some (("Cheshire").data)) : countyOf t = none := by
  rcases Option.map_eq_some'.1 h with ⟨m, hm, hf⟩
  unfold countyOf
  rw [hm]
  simp only
  rw [hf]
  decide

/-- C5: a record produced from a document whose `addressRegion`
annotation reads `Cheshire` has a null county, and no produced record
ever carries county `Cheshire`.  (The JSON variant is the only one with a
county field; the CSV variant appends the region text to the address
lines instead.) -/
theorem c5_cheshire_county_suppressed (t fn : Str) :
    (∀ r ∈ extractJSON t fn, r.address.county ≠ some (("Cheshire").data))
    ∧ (((regionMatches t).head?).map (fun m => pyStrip (stripTags m))
          = some (("Cheshire").data) →
        ∀ r ∈ extractJSON t fn, r.address.county = none) := by
  constructor
  · intro r hr
    have hr2 : (urlsCollected t).map (extractJSONCore t fn) = some r := Option.mem_def.1 hr
    rcases Option.map_eq_some'.1 hr2 with ⟨us, _, hre⟩
    rw [← hre]
    exact countyOf_ne_cheshire t
  · intro h r hr
    have hr2 : (urlsCollected t).map (extractJSONCore t fn) = some r := Option.mem_def.1 hr
    rcases Option.map_eq_some'.1 hr2 with ⟨us, _, hre⟩
    rw [← hre]
    exact countyOf_cheshire_none t h

/-- C5 witness at a concrete document. -/
theorem c5_cheshire_witness :
    ((extractJSON (("<span itemprop=\"addressRegion\">Cheshire</span>").data)
        (("f").data)).map (fun r => r.address.county)) = some none := by
  have h := (c5_cheshire_county_suppressed
      (("<span itemprop=\"addressRegion\">Cheshire</span>").data) (("f").data)).2 (by decide)
  cases he : extractJSON (("<span itemprop=\"addressRegion\">Cheshire</span>").data)
      (("f").data) with
  | none =>
    have hs : (extractJSON (("<span itemprop=\"addressRegion\">Cheshire</span>").data)
        (("f").data)).isSome = true := by decide
    rw [he] at hs
    simp at hs
  | some r =>
    have hc := h r (Option.mem_def.2 he)
    simp [hc]

/-! ### C7 -/

/-- C7: when the postcode pattern finds no match, every produced record
has an empty-string (CSV) or null (JSON) postcode -- the field is a
structural component of the record, never omitted -- and a missing
postcode never makes extraction fail (extraction fails exactly when the
URL loop raises, independently of the postcode). -/
theorem c7_no_postcode_empty (t fn : Str) (h : findPostcodes t = []) :
    (∀ d ∈ extractCSV t, d.postcode = [])
    ∧ (∀ r ∈ extractJSON t fn, r.address.postcode = none)
    ∧ ((extractCSV t).isSome = (urlsCollected t).isSome
        ∧ (extractJSON t fn).isSome = (urlsCollected t).isSome) := by
  refine ⟨?_, ?_, ?_, ?_⟩
  · intro d hd
    have hd2 : (urlsCollected t).map (extractCSVCore t) = some d := Option.mem_def.1 hd
    rcases Option.map_eq_some'.1 hd2 with ⟨us, _, hde⟩
    rw [← hde]
    show (((findPostcodes t).head?).map pyStrip).getD [] = []
    rw [h]
    rfl
  · intro r hr
    have hr2 : (urlsCollected t).map (extractJSONCore t fn) = some r := Option.mem_def.1 hr
    rcases Option.map_eq_some'.1 hr2 with ⟨us, _, hre⟩
    rw [← hre]
    show ((findPostcodes t).head?).map pyStrip = none
    rw [h]
    rfl
  · show ((urlsCollected t).map (extractCSVCore t)).isSome = (urlsCollected t).isSome
    cases urlsCollected t <;> rfl
  · show ((urlsCollected t).map (extractJSONCore t fn)).isSome = (urlsCollected t).isSome
    cases urlsCollected t <;> rfl

/-- C7 witness at a concrete document with no postcode. -/
theorem c7_no_postcode_witness :
    ((extractCSV (("<p>hello</p>").data)).map DetailsCSV.postcode) = some []
    ∧ ((extractJSON (("<p>hello</p>").data) (("f").data)).map
        (fun r => r.address.postcode)) = some none := by
  have h := c7_no_postcode_empty (("<p>hello</p>").data) (("f").data) (by decide)
  constructor
  · cases he : extractCSV (("<p>hello</p>").data) with
    | none =>
      have hs : (extractCSV (("<p>hello</p>").data)).isSome = true := by decide
      rw [he] at hs
      simp at hs
    | some d =>
      have hc := h.1 d (Option.mem_def.2 he)
      simp [hc]
  · cases he : extractJSON (("<p>hello</p>").data) (("f").data) with
    | none =>
      have hs : (extractJSON (("<p>hello</p>").data) (("f").data)).isSome = true := by decide
      rw [he] at hs
      simp at hs
    | some r =>
      have hc := h.2.1 r (Option.mem_def.2 he)
      simp [hc]

/-! ### C9 -/

/-- C9: every matched email is reproduced byte-for-byte (it occurs as a
contiguous substring of the document, with no normalization); the CSV
variant promotes exactly the first match to its single field, the JSON
variant keeps every match as a `{label, email}` entry. -/
theorem c9_email_reproduction (t fn : Str) :
    (∀ r ∈ extractJSON t fn, r.email = (findEmails t).map (fun e => ⟨e, e⟩))
    ∧ (∀ d ∈ extractCSV t, d.email = ((findEmails t).head?).getD [])
    ∧ ∀ e ∈ findEmails t, substringOf e t := by
  refine ⟨?_, ?_, ?_⟩
  · intro r hr
    have hr2 : (urlsCollected t).map (extractJSONCore t fn) = some r := Option.mem_def.1 hr
    rcases Option.map_eq_some'.1 hr2 with ⟨us, _, hre⟩
    rw [← hre]
    unfold extractJSONCore
    dsimp only
  · intro d hd
    have hd2 : (urlsCollected t).map (extractCSVCore t) = some d := Option.mem_def.1 hd
    rcases Option.map_eq_some'.1 hd2 with ⟨us, _, hde⟩
    rw [← hde]
    rfl
  · intro e he
    unfold findEmails at he
    rcases List.mem_map.1 he with ⟨s, _, hs⟩
    rw [← hs]
    exact slice_substringOf t s.1 s.2

/-- C9 witness: a concrete matched email is a substring of its document. -/
theorem c9_email_witness : substringOf (("b@c.de").data) (("a b@c.de x").data) :=
  (c9_email_reproduction (("a b@c.de x").data) (("f").data)).2.2 (("b@c.de").data) (by decide)

/-! ### C10 -/

/-- Indexing the padded address-line list below index 3 agrees with
optional indexing of the unpadded list. -/
lemma padded_getD (L : List Str) (i : Nat) (hi : i < 3) :
    (L ++ List.replicate (3 - L.length) []).getD i [] = (L[i]?).getD [] := by
  rw [List.getD_eq_getElem?_getD]
  by_cases h : i < L.length
  · rw [List.getElem?_append_left h]
  · have h1 : L[i]? = none := List.getElem?_eq_none (Nat.le_of_not_lt h)
    rw [h1, List.getElem?_append_right (Nat.le_of_not_lt h)]
    have h2 : i - L.length < 3 - L.length := by omega
    rw [List.getElem?_replicate_of_lt h2]
    rfl

/-- C10: the three CSV address columns are exactly the first three
collected lines (empty strings when fewer were found), and lines beyond
the first three never influence the row. -/
theorem c10_csv_three_address_columns (ttl : Str) (d : DetailsCSV) (extra : List Str) :
    (mkCsvRow ttl d).addr1 = ((d.address_lines)[0]?).getD []
    ∧ (mkCsvRow ttl d).addr2 = ((d.address_lines)[1]?).getD []
    ∧ (mkCsvRow ttl d).addr3 = ((d.address_lines)[2]?).getD []
    ∧ (3 ≤ d.address_lines.length →
        mkCsvRow ttl { d with address_lines := d.address_lines ++ extra }
          = mkCsvRow ttl d) := by
  refine ⟨padded_getD _ 0 (by omega), padded_getD _ 1 (by omega),
    padded_getD _ 2 (by omega), ?_⟩
  intro h3
  have hz : 3 - (d.address_lines ++ extra).length = 0 := by
    simp only [List.length_append]
    omega
  have hz0 : 3 - d.address_lines.length = 0 := by omega
  unfold mkCsvRow
  dsimp only
  rw [hz, hz0, List.replicate_zero, List.append_nil, List.append_nil]
  congr 1 <;>
    rw [List.getD_eq_getElem?_getD, List.getD_eq_getElem?_getD,
      List.getElem?_append_left (by omega)]

/-- C10 witness: a concrete fourth line does not change the row. -/
theorem c10_csv_columns_witness :
    mkCsvRow (("t").data)
        { email := [], telephone := [],
          address_lines := [("a").data, ("b").data, ("c").data] ++ [("d").data],
          postcode := [], urls := [], other := [] }
      = mkCsvRow (("t").data)
        { email := [], telephone := [],
          address_lines := [("a").data, ("b").data, ("c").data],
          postcode := [], urls := [], other := [] } :=
  (c10_csv_three_address_columns (("t").data)
    { email := [], telephone := [],
      address_lines := [("a").data, ("b").data, ("c").data],
      postcode := [], urls := [], other := [] }
    [("d").data]).2.2.2 (by decide)

/-! ### C4 and C6 -/

/-- A file contributes a record when its name is not denylisted, its
content was readable and its extraction does not raise (the URL loop
completes). -/
def isKept (f : FileEntry) : Bool :=
  decide (f.1 ∉ denyList) &&
    (match f.2 with
     | some c => (urlsCollected c).isSome
     | none => false)

/-- Specification-side per-file row function: denylisted names,
unreadable files and files whose extraction raises yield no row;
the others yield exactly one. -/
def csvRowFn (f : FileEntry) : Option CsvRow :=
  if f.1 ∈ denyList then none
  else (f.2.bind extractCSV).map (fun d => mkCsvRow (stemOf f.1) d)

/-- Specification-side per-file record function, JSON variant. -/
def jsonRecFn (f : FileEntry) : Option JsonRecord :=
  if f.1 ∈ denyList then none
  else f.2.bind (fun c => extractJSON c (stemOf f.1))

/-- The CSV loop is the `filterMap` of its per-file function. -/
lemma csvRows_eq_filterMap : ∀ l : List FileEntry, csvRows l = l.filterMap csvRowFn
  | [] => rfl
  | f :: fs => by
    rw [List.filterMap_cons]
    unfold csvRows csvRowFn
    by_cases hd : f.1 ∈ denyList
    · rw [if_pos hd, if_pos hd]
      exact csvRows_eq_filterMap fs
    · rw [if_neg hd, if_neg hd]
      cases hb : f.2.bind extractCSV with
      | none => exact csvRows_eq_filterMap fs
      | some d =>
        show mkCsvRow (stemOf f.1) d :: csvRows fs
          = mkCsvRow (stemOf f.1) d :: fs.filterMap csvRowFn
        rw [csvRows_eq_filterMap fs]

/-- The JSON loop is the `filterMap` of its per-file function. -/
lemma jsonRecs_eq_filterMap : ∀ l : List FileEntry, jsonRecs l = l.filterMap jsonRecFn
  | [] => rfl
  | f :: fs => by
    rw [List.filterMap_cons]
    unfold jsonRecs jsonRecFn
    by_cases hd : f.1 ∈ denyList
    · rw [if_pos hd, if_pos hd]
      exact jsonRecs_eq_filterMap fs
    · rw [if_neg hd, if_neg hd]
      cases hb : f.2.bind (fun c => extractJSON c (stemOf f.1)) with
      | none => exact jsonRecs_eq_filterMap fs
      | some r =>
        show r :: jsonRecs fs = r :: fs.filterMap jsonRecFn
        rw [jsonRecs_eq_filterMap fs]

/-- Titles of the CSV rows: the stems of the kept files, in order. -/
lemma csvRows_map_title : ∀ l : List FileEntry,
    (csvRows l).map CsvRow.Title = (l.filter isKept).map (fun f => stemOf f.1)
  | [] => rfl
  | f :: fs => by
    by_cases hd : f.1 ∈ denyList
    · have hk : ¬ (isKept f = true) := by simp [isKept, hd]
      unfold csvRows
      rw [if_pos hd, List.filter_cons_of_neg hk]
      exact csvRows_map_title fs
    · cases hc : f.2 with
      | none =>
        have hk : ¬ (isKept f = true) := by simp [isKept, hd, hc]
        unfold csvRows
        rw [if_neg hd, hc, List.filter_cons_of_neg hk]
        exact csvRows_map_title fs
      | some c =>
        cases hu : urlsCollected c with
        | none =>
          have hb : (some c).bind extractCSV = none := by
            show (urlsCollected c).map (extractCSVCore c) = none
            rw [hu]
            rfl
          have hk : ¬ (isKept f = true) := by simp [isKept, hd, hc, hu]
          unfold csvRows
          rw [if_neg hd, hc, hb, List.filter_cons_of_neg hk]
          exact csvRows_map_title fs
        | some us =>
          have hb : (some c).bind extractCSV = some (extractCSVCore c us) := by
            show (urlsCollected c).map (extractCSVCore c) = some (extractCSVCore c us)
            rw [hu]
            rfl
          have hk : isKept f = true := by simp [isKept, hd, hc, hu]
          unfold csvRows
          rw [if_neg hd, hc, hb, List.filter_cons_of_pos hk]
          show (mkCsvRow (stemOf f.1) (extractCSVCore c us)).Title
              :: (csvRows fs).map CsvRow.Title
            = stemOf f.1 :: (fs.filter isKept).map (fun g => stemOf g.1)
          rw [csvRows_map_title fs]
          rfl

/-- Entry titles of the JSON records: the stems of the kept files. -/
lemma jsonRecs_map_entryTitle : ∀ l : List FileEntry,
    (jsonRecs l).map JsonRecord.entryTitle = (l.filter isKept).map (fun f => stemOf f.1)
  | [] => rfl
  | f :: fs => by
    by_cases hd : f.1 ∈ denyList
    · have hk : ¬ (isKept f = true) := by simp [isKept, hd]
      unfold jsonRecs
      rw [if_pos hd, List.filter_cons_of_neg hk]
      exact jsonRecs_map_entryTitle fs
    · cases hc : f.2 with
      | none =>
        have hk : ¬ (isKept f = true) := by simp [isKept, hd, hc]
        unfold jsonRecs
        rw [if_neg hd, hc, List.filter_cons_of_neg hk]
        exact jsonRecs_map_entryTitle fs
      | some c =>
        cases hu : urlsCollected c with
        | none =>
          have hb : (some c).bind (fun c2 => extractJSON c2 (stemOf f.1)) = none := by
            show (urlsCollected c).map (extractJSONCore c (stemOf f.1)) = none
            rw [hu]
            rfl
          have hk : ¬ (isKept f = true) := by simp [isKept, hd, hc, hu]
          unfold jsonRecs
          rw [if_neg hd, hc, hb, List.filter_cons_of_neg hk]
          exact jsonRecs_map_entryTitle fs
        | some us =>
          have hb : (some c).bind (fun c2 => extractJSON c2 (stemOf f.1))
              = some (extractJSONCore c (stemOf f.1) us) := by
            show (urlsCollected c).map (extractJSONCore c (stemOf f.1))
              = some (extractJSONCore c (stemOf f.1) us)
            rw [hu]
            rfl
          have hk : isKept f = true := by simp [isKept, hd, hc, hu]
          unfold jsonRecs
          rw [if_neg hd, hc, hb, List.filter_cons_of_pos hk]
          show (extractJSONCore c (stemOf f.1) us).entryTitle
              :: (jsonRecs fs).map JsonRecord.entryTitle
            = stemOf f.1 :: (fs.filter isKept).map (fun g => stemOf g.1)
          rw [jsonRecs_map_entryTitle fs]
          rfl

/-- C4 (amended): a file whose read failed (content `none`) contributes
no row in either variant, and likewise a readable file whose extraction
raises (`urlparse` `ValueError`); every other kept file contributes
exactly one record in order, and the run covers all remaining files (the
output length equals the number of kept files). -/
theorem c4_failed_files_skipped (dir : List FileEntry) :
    processCSV dir = (sortFiles dir).filterMap csvRowFn
    ∧ processJSON dir = (sortFiles dir).filterMap jsonRecFn
    ∧ (processCSV dir).length = ((sortFiles dir).filter isKept).length
    ∧ (processJSON dir).length = ((sortFiles dir).filter isKept).length := by
  refine ⟨csvRows_eq_filterMap _, jsonRecs_eq_filterMap _, ?_, ?_⟩
  · have h := congrArg List.length (csvRows_map_title (sortFiles dir))
    simpa [List.length_map] using h
  · have h := congrArg List.length (jsonRecs_map_entryTitle (sortFiles dir))
    simpa [List.length_map] using h

/-- C4 counterexample to the claim as stated: a perfectly readable file
whose extraction raises (the `urlparse` `ValueError` on the unbalanced
bracketed netloc of its href, inside the same per-file `try`/`except`)
produces no record, so the run does not end with records for every
readable file. -/
theorem c4_readable_file_no_record_counterexample :
    processCSV [((("a.html").data), some (("<a href=\"http://[x\">").data))] = []
    ∧ processJSON [((("a.html").data), some (("<a href=\"http://[x\">").data))] = []
    ∧ urlsCollected (("<a href=\"http://[x\">").data) = none :=
  ⟨by decide, by decide, by decide⟩

/-- C6: the CSV `Title` and the JSON `entryTitle` of every produced record
are the filename stem of its (kept, successfully parsed) source file, in
order. -/
theorem c6_titles_from_filename_stem (dir : List FileEntry) :
    (processCSV dir).map CsvRow.Title
        = ((sortFiles dir).filter isKept).map (fun f => stemOf f.1)
    ∧ (processJSON dir).map JsonRecord.entryTitle
        = ((sortFiles dir).filter isKept).map (fun f => stemOf f.1) :=
  ⟨csvRows_map_title _, jsonRecs_map_entryTitle _⟩

/-! ### C2 -/

/-- A successful URL insertion never introduces a duplicate. -/
lemma addUrl_some_nodup {acc acc2 : List Str} {u : Str}
    (h : addUrl acc u = some acc2) (hn : acc.Nodup) : acc2.Nodup := by
  unfold addUrl at h
  split at h
  · rw [← Option.some.inj h]
    exact hn
  · rcases Option.map_eq_some'.1 h with ⟨b, _, hbe⟩
    rw [← hbe]
    split
    · next hcnd =>
      exact ((List.perm_append_singleton _ _).nodup_iff).2 (List.nodup_cons.2 ⟨hcnd.2, hn⟩)
    · exact hn

/-- A successful URL accumulation preserves dedup. -/
lemma foldlM_addUrl_nodup : ∀ (l acc : List Str), acc.Nodup →
    ∀ us, l.foldlM addUrl acc = some us → us.Nodup
  | [], acc, hn, us, h => by
    rw [List.foldlM_nil] at h
    rw [← Option.some.inj h]
    exact hn
  | v :: l, acc, hn, us, h => by
    rw [List.foldlM_cons] at h
    cases ha : addUrl acc v with
    | none =>
      rw [ha] at h
      simp at h
    | some acc2 =>
      rw [ha] at h
      exact foldlM_addUrl_nodup l acc2 (addUrl_some_nodup ha hn) us h

/-- Every URL of a successful accumulation is either inherited or the
successful canonicalization of a non-`mailto:` href of the scan. -/
lemma mem_foldlM_addUrl : ∀ (l acc us : List Str), l.foldlM addUrl acc = some us →
    ∀ u ∈ us, u ∈ acc
      ∨ ∃ o ∈ l, startsWithStr (("mailto:").data) o = false ∧ canonicalUrl o = some u
  | [], acc, us, h, u, hu => by
    rw [List.foldlM_nil] at h
    rw [← Option.some.inj h] at hu
    exact Or.inl hu
  | v :: l, acc, us, h, u, hu => by
    rw [List.foldlM_cons] at h
    cases ha : addUrl acc v with
    | none =>
      rw [ha] at h
      simp at h
    | some acc2 =>
      rw [ha] at h
      rcases mem_foldlM_addUrl l acc2 us h u hu with h1 | ⟨o, ho, hm, he⟩
      · unfold addUrl at ha
        split at ha
        · rw [← Option.some.inj ha] at h1
          exact Or.inl h1
        · next hml =>
          rcases Option.map_eq_some'.1 ha with ⟨b, hb, hbe⟩
          rw [← hbe] at h1
          split at h1
          · rcases List.mem_append.1 h1 with h2 | h2
            · exact Or.inl h2
            · right
              have hub : u = b := by simpa using h2
              exact ⟨v, List.mem_cons_self v l, Bool.eq_false_iff.2 hml,
                by rw [hub]; exact hb⟩
          · exact Or.inl h1
      · exact Or.inr ⟨o, List.mem_cons_of_mem v ho, hm, he⟩

/-- Only nonempty canonical URLs are ever inserted. -/
lemma mem_foldlM_addUrl_ne : ∀ (l acc : List Str), (∀ x ∈ acc, x ≠ ([] : Str)) →
    ∀ us, l.foldlM addUrl acc = some us → ∀ u ∈ us, u ≠ ([] : Str)
  | [], acc, hacc, us, h, u, hu => by
    rw [List.foldlM_nil] at h
    rw [← Option.some.inj h] at hu
    exact hacc u hu
  | v :: l, acc, hacc, us, h, u, hu => by
    rw [List.foldlM_cons] at h
    cases ha : addUrl acc v with
    | none =>
      rw [ha] at h
      simp at h
    | some acc2 =>
      rw [ha] at h
      refine mem_foldlM_addUrl_ne l acc2 ?_ us h u hu
      intro x hx
      unfold addUrl at ha
      split at ha
      · rw [← Option.some.inj ha] at hx
        exact hacc x hx
      · rcases Option.map_eq_some'.1 ha with ⟨b, _, hbe⟩
        rw [← hbe] at hx
        split at hx
        · next hcnd =>
          rcases List.mem_append.1 hx with h2 | h2
          · exact hacc x h2
          · have hxb : x = b := by simpa using h2
            rw [hxb]
            exact hcnd.1
        · exact hacc x hx

/-- Successfully canonicalized URLs never end in a slash. -/
lemma canonicalUrl_getLast {o b : Str} (h : canonicalUrl o = some b) :
    b.getLast? ≠ some '/' := by
  unfold canonicalUrl at h
  rcases Option.map_eq_some'.1 h with ⟨p, _, hpe⟩
  rw [← hpe]
  exact rstripSlash_getLast _

/-- The recognized scheme contains no question mark. -/
lemma no_qmark_scheme (u : Str) : '?' ∉ (splitSchemeUrl u).1 := by
  unfold splitSchemeUrl
  cases h : u.findIdx? (· = ':') with
  | none => simp
  | some i =>
    simp only
    split_ifs with hc
    · intro hq
      rcases List.mem_map.1 hq with ⟨c, hcmem, hlc⟩
      have hsc : isSchemeChar c = true := List.all_eq_true.1 hc.2.2 c hcmem
      rw [lowerChar_eq_qmark hlc] at hsc
      exact absurd hsc (by decide)
    · simp

/-- The scheme of the component assembly. -/
lemma mkUrlParts_scheme (sch n r2 : Str) : (mkUrlParts sch n r2).scheme = sch := rfl

/-- The netloc of the component assembly. -/
lemma mkUrlParts_netloc (sch n r2 : Str) : (mkUrlParts sch n r2).netloc = n := rfl

/-- The path of the component assembly stops before any question mark. -/
lemma mkUrlParts_no_qmark_path (sch n r2 : Str) : '?' ∉ (mkUrlParts sch n r2).path := by
  unfold mkUrlParts
  dsimp only
  intro hq
  have := List.mem_takeWhile_imp hq
  simp at this

/-- No component of a successful parse contains a question mark
(the query was split off). -/
lemma urlparse_no_qmark {u : Str} {p : UrlParts} (h : urlparseUrl u = some p) :
    '?' ∉ p.scheme ∧ '?' ∉ p.netloc ∧ '?' ∉ p.path := by
  unfold urlparseUrl at h
  dsimp only at h
  split at h
  · split at h
    · simp at h
    · have hps := (Option.some.inj h).symm
      subst hps
      refine ⟨?_, ?_, mkUrlParts_no_qmark_path _ _ _⟩
      · rw [mkUrlParts_scheme]
        exact no_qmark_scheme _
      · rw [mkUrlParts_netloc]
        intro hq
        have := List.mem_takeWhile_imp hq
        simp at this
  · have hps := (Option.some.inj h).symm
    subst hps
    refine ⟨?_, ?_, mkUrlParts_no_qmark_path _ _ _⟩
    · rw [mkUrlParts_scheme]
      exact no_qmark_scheme _
    · rw [mkUrlParts_netloc]
      simp

/-- A successfully canonicalized URL that retains a question mark can only
come from the scheme-less passthrough branch. -/
lemma canonicalUrl_qmark {o b : Str} (h : canonicalUrl o = some b) (hq : '?' ∈ b) :
    ((urlparseUrl o).map UrlParts.scheme) = some [] ∧ b = rstripSlash o := by
  unfold canonicalUrl at h
  rcases Option.map_eq_some'.1 h with ⟨p, hp, hpe⟩
  by_cases hsch : p.scheme = []
  · constructor
    · rw [hp]
      simp [hsch]
    · rw [if_neg (not_not_intro hsch)] at hpe
      exact hpe.symm
  · exfalso
    rw [← hpe, if_pos hsch] at hq
    have hq2 := mem_rstripSlash hq
    rcases List.mem_append.1 hq2 with hq3 | hq3
    · rcases List.mem_append.1 hq3 with hq4 | hq4
      · rcases List.mem_append.1 hq4 with hq5 | hq5
        · exact (urlparse_no_qmark hp).1 hq5
        · exact absurd hq5 (by decide)
      · exact (urlparse_no_qmark hp).2.1 hq4
    · exact (urlparse_no_qmark hp).2.2 hq3

/-- C2 (amended): when the URL collection completes (no `urlparse` raise),
the collected URLs are deduplicated (also after the CSV sort), nonempty,
never end in a slash, and each is the canonicalization of a non-`mailto:`
href; a URL retaining a question mark can only be a scheme-less href
passed through unchanged, and the scenario href with a query yields the
query-free canonical form. -/
theorem c2_urls_canonical_dedup (t : Str) (us : List Str)
    (h : urlsCollected t = some us) :
    us.Nodup
    ∧ (sortStrs us).Nodup
    ∧ (∀ u ∈ us, u ≠ [] ∧ u.getLast? ≠ some '/'
        ∧ ∃ o ∈ findHrefs t, startsWithStr (("mailto:").data) o = false
            ∧ canonicalUrl o = some u)
    ∧ (∀ u ∈ us, '?' ∈ u →
        ∃ o ∈ findHrefs t, ((urlparseUrl o).map UrlParts.scheme) = some []
            ∧ u = rstripSlash o)
    ∧ canonicalUrl (("https://x.org/page?ref=1").data)
        = some (("https://x.org/page").data) := by
  have h2 : (findHrefs t).foldlM addUrl [] = some us := h
  have hnd : us.Nodup := foldlM_addUrl_nodup _ _ List.nodup_nil us h2
  refine ⟨hnd, ((List.perm_insertionSort _ _).nodup_iff).2 hnd, ?_, ?_, by decide⟩
  · intro u hu
    refine ⟨mem_foldlM_addUrl_ne _ _ (by simp) us h2 u hu, ?_, ?_⟩
    · rcases mem_foldlM_addUrl _ _ us h2 u hu with hx | ⟨o, _, _, he⟩
      · exact absurd hx (List.not_mem_nil u)
      · exact canonicalUrl_getLast he
    · rcases mem_foldlM_addUrl _ _ us h2 u hu with hx | ⟨o, ho, hm, he⟩
      · exact absurd hx (List.not_mem_nil u)
      · exact ⟨o, ho, hm, he⟩
  · intro u hu hq
    rcases mem_foldlM_addUrl _ _ us h2 u hu with hx | ⟨o, ho, _, he⟩
    · exact absurd hx (List.not_mem_nil u)
    · rcases canonicalUrl_qmark he hq with ⟨hs, hb⟩
      exact ⟨o, ho, hs, hb⟩

/-- C2 counterexample to the claim as stated: a scheme-less href keeps its
query string in the output. -/
theorem c2_query_retained_counterexample :
    urlsCollected (("<a href=\"/page?ref=1\">").data) = some [("/page?ref=1").data]
    ∧ '?' ∈ (("/page?ref=1").data) :=
  ⟨by decide, by decide⟩

/-- C2 witness: the query-retaining output URL of a concrete document
traces back to a scheme-less href. -/
theorem c2_urls_witness :
    ∃ o ∈ findHrefs (("<a href=\"/p?x=1\">").data),
      ((urlparseUrl o).map UrlParts.scheme) = some []
        ∧ (("/p?x=1").data) = rstripSlash o :=
  (c2_urls_canonical_dedup (("<a href=\"/p?x=1\">").data) [(("/p?x=1").data)]
      (by decide)).2.2.2.1 (("/p?x=1").data) (by decide) (by decide)

/-! ### C8 -/

/-- C8 (amended): in every produced CSV record, the `other` field is the
sorted, deduplicated list of the smallest at most three qualifying
capitalized phrases (every element qualifies, and every qualifying term
left out is at least as large as every element kept); in every produced
JSON record, `other` is instead the full plain-text rendering of the
document. -/
theorem c8_other_top3 (t fn : Str) :
    (∀ d ∈ extractCSV t,
      List.Sorted (· ≤ ·) d.other
      ∧ d.other.length ≤ 3
      ∧ d.other.Nodup
      ∧ (∀ w ∈ d.other, w ∈ otherTermsAll t)
      ∧ (∀ w ∈ d.other, ∀ s ∈ otherTermsAll t, s ∉ d.other → w ≤ s))
    ∧ (∀ r ∈ extractJSON t fn, r.other = extractPlainText t) := by
  constructor
  · intro d hd
    have hd2 : (urlsCollected t).map (extractCSVCore t) = some d := Option.mem_def.1 hd
    rcases Option.map_eq_some'.1 hd2 with ⟨us, _, hde⟩
    have hother : d.other = (sortStrs (otherTermsAll t).dedup).take 3 := by
      rw [← hde]
      rfl
    rw [hother]
    set S := sortStrs (otherTermsAll t).dedup with hS
    have hsorted : List.Sorted (· ≤ ·) S := List.sorted_insertionSort _ _
    have hperm : S.Perm (otherTermsAll t).dedup := List.perm_insertionSort _ _
    have hnodupS : S.Nodup := (hperm.nodup_iff).2 (List.nodup_dedup _)
    refine ⟨?_, ?_, ?_, ?_, ?_⟩
    · exact List.Pairwise.sublist (List.take_sublist 3 S) hsorted
    · exact List.length_take_le 3 S
    · exact List.Nodup.sublist (List.take_sublist 3 S) hnodupS
    · intro w hw
      have hwS : w ∈ S := (List.take_subset 3 S) hw
      exact List.mem_dedup.1 (hperm.subset hwS)
    · intro w hw s hs hns
      have hsS : s ∈ S := hperm.symm.subset (List.mem_dedup.2 hs)
      have hsplit : S = S.take 3 ++ S.drop 3 := (List.take_append_drop 3 S).symm
      have hsd : s ∈ S.drop 3 := by
        rcases List.mem_append.1 (hsplit ▸ hsS) with h | h
        · exact absurd h hns
        · exact h
      have hpw : List.Pairwise (· ≤ ·) (S.take 3 ++ S.drop 3) := by
        rw [← hsplit]
        exact hsorted
      exact (List.pairwise_append.1 hpw).2.2 w hw s hsd
  · intro r hr
    have hr2 : (urlsCollected t).map (extractJSONCore t fn) = some r := Option.mem_def.1 hr
    rcases Option.map_eq_some'.1 hr2 with ⟨us, _, hre⟩
    rw [← hre]
    unfold extractJSONCore
    dsimp only

/-- C8 counterexample to the claim as stated: a document with no
qualifying capitalized phrase whose JSON `other` field is nevertheless
populated (with the plain text), not null. -/
theorem c8_json_other_counterexample :
    ((extractJSON (("x y").data) (("f").data)).map JsonRecord.other)
      = some (some (("x y").data))
    ∧ otherTermsAll (("x y").data) = [] :=
  ⟨by decide, by decide⟩

/-- C8 witness: on a concrete document with four qualifying terms, a kept
term is bounded by the dropped one. -/
theorem c8_other_witness : (("Aa").data) ≤ (("Dd").data) := by
  have h := (c8_other_top3 (("Dd, Cc, Bb, Aa").data) (("f").data)).1
    (extractCSVCore (("Dd, Cc, Bb, Aa").data) []) (Option.mem_def.2 (by decide))
  exact h.2.2.2.2 (("Aa").data) (by decide) (("Dd").data) (by decide) (by decide)

/-! ### C3 -/

/-- Totality of the name order used by the enumeration sort. -/
instance : IsTotal FileEntry (fun a b => a.1 ≤ b.1) :=
  ⟨fun a b => le_total a.1 b.1⟩

/-- Transitivity of the name order used by the enumeration sort. -/
instance : IsTrans FileEntry (fun a b => a.1 ≤ b.1) :=
  ⟨fun _ _ _ hab hbc => le_trans hab hbc⟩

/-- Two permutation-equal lists of files with pairwise-distinct names that
are both sorted by name are equal. -/
lemma sorted_unique_by_name : ∀ (l₁ l₂ : List FileEntry), l₁.Perm l₂ →
    List.Sorted (fun a b => a.1 ≤ b.1) l₁ → List.Sorted (fun a b => a.1 ≤ b.1) l₂ →
    (l₁.map Prod.fst).Nodup → l₁ = l₂
  | [], _, hp, _, _, _ => hp.nil_eq
  | a :: t, [], hp, _, _, _ => by
    have := hp.length_eq
    simp at this
  | a :: t, b :: u, hp, hs₁, hs₂, hn => by
    have hcons1 := List.sorted_cons.1 hs₁
    have hcons2 := List.sorted_cons.1 hs₂
    have hn' : (a.1 :: t.map Prod.fst).Nodup := by
      rw [List.map_cons] at hn
      exact hn
    have hn1 := List.nodup_cons.1 hn'
    have hab : a = b := by
      by_contra hne
      have ha : a ∈ b :: u := hp.subset (List.mem_cons_self a t)
      have hb : b ∈ a :: t := hp.symm.subset (List.mem_cons_self b u)
      have ha2 : a ∈ u := by
        rcases List.mem_cons.1 ha with h | h
        · exact absurd h hne
        · exact h
      have hb2 : b ∈ t := by
        rcases List.mem_cons.1 hb with h | h
        · exact absurd h.symm hne
        · exact h
      have h1 : a.1 ≤ b.1 := hcons1.1 b hb2
      have h2 : b.1 ≤ a.1 := hcons2.1 a ha2
      exact hn1.1 ((le_antisymm h2 h1) ▸ List.mem_map_of_mem Prod.fst hb2)
    subst hab
    rw [sorted_unique_by_name t u hp.cons_inv hcons1.2 hcons2.2 hn1.2]

/-- Enumeration of permutation-equal directories with distinct file names
sorts to the same list. -/
lemma sortFiles_perm_eq {d₁ d₂ : List FileEntry} (hp : d₁.Perm d₂)
    (hn : (d₁.map Prod.fst).Nodup) : sortFiles d₁ = sortFiles d₂ := by
  have hfp : (d₁.filter (fun f => endsWithStr ((".html").data) f.1)).Perm
      (d₂.filter (fun f => endsWithStr ((".html").data) f.1)) := hp.filter _
  have hsp : (sortFiles d₁).Perm (sortFiles d₂) :=
    (List.perm_insertionSort _ _).trans (hfp.trans (List.perm_insertionSort _ _).symm)
  apply sorted_unique_by_name _ _ hsp (List.sorted_insertionSort _ _)
    (List.sorted_insertionSort _ _)
  have hsub : List.Sublist
      ((d₁.filter (fun f => endsWithStr ((".html").data) f.1)).map Prod.fst)
      (d₁.map Prod.fst) := List.Sublist.map Prod.fst (List.filter_sublist _)
  have hnf : ((d₁.filter (fun f => endsWithStr ((".html").data) f.1)).map Prod.fst).Nodup :=
    List.Nodup.sublist hsub hn
  have hpm : ((sortFiles d₁).map Prod.fst).Perm
      ((d₁.filter (fun f => endsWithStr ((".html").data) f.1)).map Prod.fst) :=
    (List.perm_insertionSort _ _).map Prod.fst
  exact (hpm.nodup_iff).2 hnf

/-- C3: the output record list (both variants) is a deterministic function
of the set of file names and contents: any two enumerations of the same
directory (permutations with distinct file names) produce identical
records in identical order. -/
theorem c3_deterministic_output (d₁ d₂ : List FileEntry) (hp : d₁.Perm d₂)
    (hn : (d₁.map Prod.fst).Nodup) :
    processCSV d₁ = processCSV d₂ ∧ processJSON d₁ = processJSON d₂ := by
  have h := sortFiles_perm_eq hp hn
  exact ⟨congrArg csvRows h, congrArg jsonRecs h⟩

/-- C3 witness: a concrete two-file directory processed in either
enumeration order yields the same records. -/
theorem c3_deterministic_witness :
    processCSV [(("b.html").data, some (("x").data)), (("a.html").data, none)]
      = processCSV [(("a.html").data, none), (("b.html").data, some (("x").data))]
    ∧ processJSON [(("b.html").data, some (("x").data)), (("a.html").data, none)]
      = processJSON [(("a.html").data, none), (("b.html").data, some (("x").data))] :=
  c3_deterministic_output _ _ (List.Perm.swap _ _ _) (by decide)

end ContactDetails
